import Mathlib

/-!
Shallow embedding of the core of the climate-analysis repository:
the functions convert_time_to_numeric and compute_linear_trend from
src/trend_analysis.py, together with the scipy.stats.linregress routine
that compute_linear_trend applies to every non-time coordinate through
xr.apply_ufunc(..., input_core_dims=[["time"]], vectorize=True).

Modelling conventions:
- Python floats are modelled as exact rationals extended with an explicit
  NaN element (the RVal type); NaN propagates through arithmetic and every
  ordered comparison against NaN is False, as in IEEE semantics.
- The two transcendental routines used by linregress (np.sqrt and the
  Student t survival function distributions.t.sf) are supplied by the
  caller as an abstract FloatOps record; every control-flow theorem holds
  for all choices of these operations, and concrete evaluations use the
  trivial instantiation ops0.
- A Python call either returns a value or raises an uncaught exception;
  this is the PyOutcome type.  Sites that catch exceptions (the try/except
  around xr.apply_ufunc) are modelled by the Except monad internally.
- An xarray Dataset is modelled by the only parts these two functions
  read: its data variables, each reduced to the list of its 1-dimensional
  time series (one per combination of non-time coordinates, which is
  exactly how apply_ufunc with input_core_dims=[["time"]] and
  vectorize=True iterates the array), and its optional time coordinate.
-/

namespace Climate

/-- Abstract interface to the two transcendental floating-point routines
used by scipy.stats.linregress: np.sqrt and the Student t survival
function distributions.t.sf (of the t statistic and the degrees of
freedom).  Theorems quantify over all implementations. -/
structure FloatOps where
  sqrt : ℚ → ℚ
  tsf : ℚ → ℕ → ℚ

/-- A trivial concrete instantiation of FloatOps, used to evaluate the
embedding at concrete inputs. -/
def ops0 : FloatOps := ⟨fun q => q, fun _ _ => 0⟩

/-- A Python float: NaN, or an exact rational value. -/
inductive RVal where
  | nan : RVal
  | val : ℚ → RVal
deriving DecidableEq

namespace RVal

/-- IEEE addition restricted to finite values and NaN. -/
def add : RVal → RVal → RVal
  | val a, val b => val (a + b)
  | _, _ => nan

/-- IEEE subtraction restricted to finite values and NaN. -/
def sub : RVal → RVal → RVal
  | val a, val b => val (a - b)
  | _, _ => nan

/-- IEEE multiplication restricted to finite values and NaN. -/
def mul : RVal → RVal → RVal
  | val a, val b => val (a * b)
  | _, _ => nan

/-- Division.  A zero denominator is collapsed to NaN; the guarded code
paths below never divide a nonzero finite value by an exact zero, so the
infinities of IEEE arithmetic are never observable in the claims. -/
def div : RVal → RVal → RVal
  | val a, val b => if b = 0 then nan else val (a / b)
  | _, _ => nan

/-- Python ==: any comparison against NaN is False. -/
def beq : RVal → RVal → Bool
  | val a, val b => a == b
  | _, _ => false

/-- Python > against a rational bound: False when NaN. -/
def gtQ : RVal → ℚ → Bool
  | val a, q => decide (q < a)
  | nan, _ => false

/-- Python < against a rational bound: False when NaN. -/
def ltQ : RVal → ℚ → Bool
  | val a, q => decide (a < q)
  | nan, _ => false

/-- np.sqrt: NaN on NaN or a negative argument, otherwise delegated to
the abstract FloatOps routine. -/
def sqrtW (ops : FloatOps) : RVal → RVal
  | nan => nan
  | val q => if q < 0 then nan else val (ops.sqrt q)

/-- Sum of a float sample (NaN-propagating). -/
def sum (l : List RVal) : RVal := l.foldl add (val 0)

/-- np.mean of a float sample (NaN-propagating; NaN on an empty sample,
where numpy also produces NaN). -/
def mean (l : List RVal) : RVal := (sum l).div (val (l.length : ℚ))

end RVal

/-- np.amax of a rational sample (0 for the empty list, which is never
reached behind the non-empty guard of linregress). -/
def qmax : List ℚ → ℚ
  | [] => 0
  | x :: xs => xs.foldl max x

/-- np.amin of a rational sample (0 for the empty list, never reached). -/
def qmin : List ℚ → ℚ
  | [] => 0
  | x :: xs => xs.foldl min x

/-- The TINY regularisation constant of scipy.stats.linregress. -/
def TINY : ℚ := 1 / 10 ^ 20

/-- xmean = np.mean(x) in scipy.stats.linregress (the x sample is the
numeric time axis, which never contains NaN, so this mean is exact). -/
def xmeanOf (x : List ℚ) : ℚ := x.sum / (x.length : ℚ)

/-- ssxm of np.cov(x, y, bias=1): the averaged sum of squared deviations
of x from its mean.  It involves only the x row of the covariance
matrix, hence stays exact even when y contains NaN. -/
def ssxmOf (x : List ℚ) : ℚ :=
  (x.map (fun xi => (xi - xmeanOf x) * (xi - xmeanOf x))).sum / (x.length : ℚ)

/-- ssxym of np.cov(x, y, bias=1): the averaged sum of products of the
deviations of x and y from their means (NaN-propagating through y). -/
def ssxymOf (x : List ℚ) (y : List RVal) : RVal :=
  RVal.mean
    (List.zipWith (fun xi yi => (RVal.val (xi - xmeanOf x)).mul (yi.sub (RVal.mean y))) x y)

/-- ssym of np.cov(x, y, bias=1): the averaged sum of squared deviations
of y from its mean (NaN-propagating). -/
def ssymOf (y : List RVal) : RVal :=
  RVal.mean (y.map (fun yi => (yi.sub (RVal.mean y)).mul (yi.sub (RVal.mean y))))

/-- The r value of scipy.stats.linregress: 0 when either variance term
is zero (NaN compares unequal to 0), otherwise
ssxym / sqrt(ssxm * ssym) clamped into [-1, 1] (both comparisons are
False on NaN, so a NaN r is left unclamped). -/
def rOf (ops : FloatOps) (x : List ℚ) (y : List RVal) : RVal :=
  if ssxmOf x = 0 ∨ (ssymOf y).beq (RVal.val 0) then RVal.val 0
  else
    let r0 := (ssxymOf x y).div (((RVal.val (ssxmOf x)).mul (ssymOf y)).sqrtW ops)
    if r0.gtQ 1 then RVal.val 1
    else if r0.ltQ (-1) then RVal.val (-1)
    else r0

/-- The slope of scipy.stats.linregress: ssxym / ssxm. -/
def slopeOf (x : List ℚ) (y : List RVal) : RVal :=
  (ssxymOf x y).div (RVal.val (ssxmOf x))

/-- The two-sided p-value of scipy.stats.linregress: for n = 2 it is 1.0
when y[0] == y[1] and 0.0 otherwise; for n > 2 it is
2 * t.sf(|t|, n - 2) with t = r * sqrt(df / ((1 - r + TINY) *
(1 + r + TINY))), NaN when t is NaN (t.sf maps NaN to NaN). -/
def probOf (ops : FloatOps) (x : List ℚ) (y : List RVal) : RVal :=
  if x.length = 2 then
    if (y.getD 0 RVal.nan).beq (y.getD 1 RVal.nan) then RVal.val 1 else RVal.val 0
  else
    let df : ℕ := x.length - 2
    let t := (rOf ops x y).mul (((RVal.val (df : ℚ)).div
      ((((RVal.val 1).sub (rOf ops x y)).add (RVal.val TINY)).mul
        (((RVal.val 1).add (rOf ops x y)).add (RVal.val TINY)))).sqrtW ops)
    match t with
    | RVal.nan => RVal.nan
    | RVal.val tv => RVal.val (2 * ops.tsf |tv| df)

/-- scipy.stats.linregress applied to the numeric time axis x (a rational
sample: the time axis never contains NaN) and one observation series y,
returning the (slope, pvalue) pair that the helper linreg in
compute_linear_trend extracts.  Faithful to the scipy source: the two
initial ValueError guards (empty input, and all x identical when
len(x) > 1), then the quantities named above.  The intercept and the
standard errors are computed by scipy but discarded by linreg, so they
are not modelled.  np.cov raises a ValueError when the two samples have
different lengths; that guard is the third branch. -/
def linregress (ops : FloatOps) (x : List ℚ) (y : List RVal) :
    Except String (RVal × RVal) :=
  if x.length = 0 ∨ y.length = 0 then
    .error "ValueError: Inputs must not be empty."
  else if qmax x = qmin x ∧ 1 < x.length then
    .error "ValueError: Cannot calculate a linear regression if all x values are identical"
  else if x.length ≠ y.length then
    .error "ValueError: x and y must have the same length along axis"
  else
    .ok (slopeOf x y, probOf ops x y)

/-- A value stored in the time coordinate of the dataset.  A cf value is
a cftime.datetime calendar object carrying year, month (1..12 in the
data model) and day fields.  A std value is any other, standard time
representation (e.g. a numpy.datetime64): raw is the number obtained by
casting it to float (for datetime64 the underlying epoch-based integer
count), while the year and frac fields record the calendar reading of
that same instant (its calendar year, and the fraction of the year
elapsed up to its day).  The code path of convert_time_to_numeric reads
only raw on std values; year and frac exist solely so that the
spec-modelled definition specFracYear below can be stated and compared
against the code. -/
inductive TimeVal where
  | cf : Int → Int → Int → TimeVal
  | std : ℚ → Int → ℚ → TimeVal
deriving DecidableEq

/-- One element of the comprehension
[t.year + (t.month) / 12 for t in time_var.values]: reading the .year
attribute of a value that is not a calendar object raises an
AttributeError in Python. -/
def cfNumeric : TimeVal → Except String ℚ
  | .cf y m _ => .ok ((y : ℚ) + (m : ℚ) / 12)
  | .std _ _ _ => .error "AttributeError"

/-- One element of time_var.values.astype(float): a standard value is
cast to its raw numeric representation; a cftime calendar object cannot
be cast to float and raises a TypeError. -/
def stdFloat : TimeVal → Except String ℚ
  | .std raw _ _ => .ok raw
  | .cf _ _ _ => .error "TypeError"

/-- Modelled from the spec: the fractional year that section 4.1 of the
spec attributes to the standard-calendar path of the normalizer, namely
each value converted via its calendar year plus the fraction of the year
elapsed to the day.  On calendar objects it coincides with the
year + month / 12 convention.  This definition follows the words of the
spec and exists only to be compared with the code path (claim C2). -/
def specFracYear : TimeVal → ℚ
  | .cf y m _ => (y : ℚ) + (m : ℚ) / 12
  | .std _ year frac => (year : ℚ) + frac

/-- The raw float that values.astype(float) yields for a std value (the
cf branch is never consulted under the all-std hypotheses that accompany
every use of this function). -/
def TimeVal.rawFloat : TimeVal → ℚ
  | .std raw _ _ => raw
  | .cf _ _ _ => 0

/-- Element-wise evaluation of a Python loop over a list, propagating
the first raised exception. -/
def mapE (f : α → Except String β) : List α → Except String (List β)
  | [] => .ok []
  | a :: l =>
    match f a with
    | .error e => .error e
    | .ok b =>
      match mapE f l with
      | .error e => .error e
      | .ok bs => .ok (b :: bs)

/-- The observable outcome of a Python call: a returned value, or an
uncaught exception identified by its kind. -/
inductive PyOutcome (α : Type) where
  | ret : α → PyOutcome α
  | exn : String → PyOutcome α
deriving DecidableEq

/-- convert_time_to_numeric from src/trend_analysis.py, as a function of
the time coordinate, the only part of the dataset it reads.
Control flow of the source:
- no "time" in ds: prints an error and returns None;
- otherwise it reads time_var.values[0] for the isinstance test, which
  raises an IndexError when the time axis is present but empty;
- if values[0] is a cftime.datetime, it builds
  [t.year + (t.month) / 12 for t in values] and then prints the
  diagnostic frequency round((numeric_time[1] - numeric_time[0]) * 12),
  whose numeric_time[1] access raises an IndexError when the axis has
  exactly one timestamp; otherwise it returns the numeric array;
- if values[0] is not a cftime.datetime, it returns
  values.astype(float). -/
def convertT : Option (List TimeVal) → PyOutcome (Option (List ℚ))
  | none => .ret none
  | some ts =>
    match ts with
    | [] => .exn "IndexError"
    | t :: rest =>
      match t with
      | .cf _ _ _ =>
        match mapE cfNumeric (t :: rest) with
        | .error e => .exn e
        | .ok nums =>
          if nums.length < 2 then .exn "IndexError" else .ret (some nums)
      | .std _ _ _ =>
        match mapE stdFloat (t :: rest) with
        | .error e => .exn e
        | .ok nums => .ret (some nums)

/-- The slice of an xarray.Dataset read by the two functions under
study: the data variables (keyed by name, each variable reduced to the
list of its 1-dimensional time series, one per non-time coordinate
combination in the order apply_ufunc iterates them) and the optional
time coordinate. -/
structure Dataset where
  vars : List (String × List (List RVal))
  time : Option (List TimeVal)

/-- convert_time_to_numeric applied to a dataset. -/
def convert_time_to_numeric (ds : Dataset) : PyOutcome (Option (List ℚ)) :=
  convertT ds.time

/-- The five distinct failure sites of compute_linear_trend; each is a
separate return statement in the source, preceded by its own diagnostic
print (variable missing, "time" missing, time conversion returned None,
fewer than two time points, and the except-branch of the try around
xr.apply_ufunc). -/
inductive TrendError where
  | variableNotFound
  | timeAxisNotFound
  | normalizationFailed
  | insufficientSamples
  | regressionFailed
deriving DecidableEq

/-- The outcome of compute_linear_trend, keeping the failure sites
distinguishable for the analysis; the value the Python caller observes
is recovered by TrendOutcome.toPy below. -/
inductive TrendOutcome where
  | ok : List (RVal × RVal) → TrendOutcome
  | err : TrendError → TrendOutcome
  | exn : String → TrendOutcome
deriving DecidableEq

/-- compute_linear_trend from src/trend_analysis.py.  Control flow of
the source, in order: the variable-membership check, the "time"
membership check, the call to convert_time_to_numeric (outside any
try/except, so its exceptions propagate to the caller uncaught), the
check that the conversion result is not None, the
len(time_values) < 2 check, and finally the vectorized per-series
regression inside try/except, where any raised exception is caught and
turned into the failure return. -/
def compute_linear_trend (ops : FloatOps) (ds : Dataset) (var_name : String) :
    TrendOutcome :=
  match ds.vars.lookup var_name with
  | none => .err .variableNotFound
  | some var_data =>
    match ds.time with
    | none => .err .timeAxisNotFound
    | some _ =>
      match convert_time_to_numeric ds with
      | .exn e => .exn e
      | .ret none => .err .normalizationFailed
      | .ret (some time_values) =>
        if time_values.length < 2 then .err .insufficientSamples
        else
          match mapE (linregress ops time_values) var_data with
          | .error _ => .err .regressionFailed
          | .ok res => .ok res

/-- The value the Python caller of compute_linear_trend observes: on
success the pair of the slope array and the p-value array, on every
failure site the literal return value (None, None), and on an uncaught
exception the exception itself. -/
def TrendOutcome.toPy :
    TrendOutcome → PyOutcome (Option (List RVal) × Option (List RVal))
  | .ok res => .ret (some (res.map Prod.fst), some (res.map Prod.snd))
  | .err _ => .ret (none, none)
  | .exn e => .exn e

/-- Chronological order on time values: calendar objects compare
lexicographically by year, month, day; standard values compare by their
raw representation (for datetime64 the epoch-based count, which orders
exactly as the instants do).  Values of different representations are
never ordered (a homogeneous axis is the only case in which the
normalizer can succeed). -/
def TimeVal.le : TimeVal → TimeVal → Prop
  | .cf y1 m1 d1, .cf y2 m2 d2 =>
      y1 < y2 ∨ (y1 = y2 ∧ (m1 < m2 ∨ (m1 = m2 ∧ d1 ≤ d2)))
  | .std r1 _ _, .std r2 _ _ => r1 ≤ r2
  | _, _ => False

instance (a b : TimeVal) : Decidable (TimeVal.le a b) :=
  match a, b with
  | .cf y1 m1 d1, .cf y2 m2 d2 =>
      inferInstanceAs (Decidable (y1 < y2 ∨ (y1 = y2 ∧ (m1 < m2 ∨ (m1 = m2 ∧ d1 ≤ d2)))))
  | .cf _ _ _, .std _ _ _ => inferInstanceAs (Decidable False)
  | .std _ _ _, .cf _ _ _ => inferInstanceAs (Decidable False)
  | .std r1 _ _, .std r2 _ _ => inferInstanceAs (Decidable (r1 ≤ r2))

/-- Well-formedness from the data model of the spec: the month of a
calendar timestamp lies in 1..12. -/
def TimeVal.valid : TimeVal → Prop
  | .cf _ m _ => 1 ≤ m ∧ m ≤ 12
  | .std _ _ _ => True

instance (t : TimeVal) : Decidable (TimeVal.valid t) :=
  match t with
  | .cf _ m _ => inferInstanceAs (Decidable (1 ≤ m ∧ m ≤ 12))
  | .std _ _ _ => inferInstanceAs (Decidable True)

/-! Helper lemmas about the element-wise loop mapE. -/

theorem mapE_ok_length {α β : Type} {f : α → Except String β} :
    ∀ {l : List α} {bs : List β}, mapE f l = .ok bs → bs.length = l.length := by
  intro l
  induction l with
  | nil =>
    intro bs h
    simp [mapE] at h
    simp [← h]
  | cons a l ih =>
    intro bs h
    simp only [mapE] at h
    cases hfa : f a with
    | error e => rw [hfa] at h; exact absurd h (by simp)
    | ok b =>
      rw [hfa] at h
      cases hml : mapE f l with
      | error e => rw [hml] at h; exact absurd h (by simp)
      | ok bs0 =>
        rw [hml] at h
        simp only [Except.ok.injEq] at h
        subst h
        simp [ih hml]

theorem mapE_ok_get {α β : Type} {f : α → Except String β} :
    ∀ {l : List α} {bs : List β}, mapE f l = .ok bs →
      ∀ i (hi : i < l.length) (hb : i < bs.length),
        f (l.get ⟨i, hi⟩) = .ok (bs.get ⟨i, hb⟩) := by
  intro l
  induction l with
  | nil => intro bs h i hi hb; exact absurd hi (by simp)
  | cons a l ih =>
    intro bs h i hi hb
    simp only [mapE] at h
    cases hfa : f a with
    | error e => rw [hfa] at h; exact absurd h (by simp)
    | ok b =>
      rw [hfa] at h
      cases hml : mapE f l with
      | error e => rw [hml] at h; exact absurd h (by simp)
      | ok bs0 =>
        rw [hml] at h
        simp only [Except.ok.injEq] at h
        subst h
        cases i with
        | zero => simpa using hfa
        | succ j =>
          have hj : j < l.length := by simpa using hi
          have hjb : j < bs0.length := by simpa using hb
          simpa using ih hml j hj hjb

theorem mapE_ok_of_forall {α β : Type} {f : α → Except String β} :
    ∀ {l : List α}, (∀ a ∈ l, ∃ b, f a = .ok b) →
      ∃ bs, mapE f l = .ok bs := by
  intro l
  induction l with
  | nil => intro h; exact ⟨[], rfl⟩
  | cons a l ih =>
    intro h
    obtain ⟨b, hb⟩ := h a (by simp)
    obtain ⟨bs, hbs⟩ := ih (fun x hx => h x (by simp [hx]))
    exact ⟨b :: bs, by simp [mapE, hb, hbs]⟩

theorem mapE_ok_mem {α β : Type} {f : α → Except String β} :
    ∀ {l : List α} {bs : List β}, mapE f l = .ok bs →
      ∀ a ∈ l, ∃ b, f a = .ok b := by
  intro l
  induction l with
  | nil => intro bs h a ha; exact absurd ha (by simp)
  | cons a0 l ih =>
    intro bs h a ha
    simp only [mapE] at h
    cases hfa : f a0 with
    | error e => rw [hfa] at h; exact absurd h (by simp)
    | ok b =>
      rw [hfa] at h
      cases hml : mapE f l with
      | error e => rw [hml] at h; exact absurd h (by simp)
      | ok bs0 =>
        rcases List.mem_cons.mp ha with h0 | h0
        · exact ⟨b, h0 ▸ hfa⟩
        · exact ih hml a h0

theorem mapE_congr {α β : Type} {f : α → Except String β} {g : α → β} :
    ∀ {l : List α}, (∀ a ∈ l, f a = .ok (g a)) →
      mapE f l = .ok (l.map g) := by
  intro l
  induction l with
  | nil => intro _; rfl
  | cons a l ih =>
    intro h
    have ha := h a (by simp)
    have hl := ih (fun x hx => h x (by simp [hx]))
    simp [mapE, ha, hl]

/-! Helper lemmas about NaN propagation. -/

theorem RVal.add_nan_right : ∀ x : RVal, x.add RVal.nan = RVal.nan := by
  intro x; cases x <;> rfl

theorem RVal.add_nan_left : ∀ x : RVal, RVal.nan.add x = RVal.nan := by
  intro x; cases x <;> rfl

theorem RVal.sub_nan_right : ∀ x : RVal, x.sub RVal.nan = RVal.nan := by
  intro x; cases x <;> rfl

theorem RVal.mul_nan_right : ∀ x : RVal, x.mul RVal.nan = RVal.nan := by
  intro x; cases x <;> rfl

theorem RVal.mul_nan_left : ∀ x : RVal, RVal.nan.mul x = RVal.nan := by
  intro x; cases x <;> rfl

theorem RVal.div_nan_left : ∀ x : RVal, RVal.nan.div x = RVal.nan := by
  intro x; cases x <;> rfl

theorem RVal.div_nan_right : ∀ x : RVal, x.div RVal.nan = RVal.nan := by
  intro x; cases x <;> rfl

theorem RVal.beq_nan_left : ∀ x : RVal, RVal.nan.beq x = false := by
  intro x; cases x <;> rfl

theorem RVal.sqrtW_nan (ops : FloatOps) : RVal.sqrtW ops RVal.nan = RVal.nan := rfl

theorem RVal.foldl_add_acc_nan :
    ∀ l : List RVal, l.foldl RVal.add RVal.nan = RVal.nan := by
  intro l
  induction l with
  | nil => rfl
  | cons a l ih => simpa [List.foldl, RVal.add_nan_left] using ih

theorem RVal.foldl_add_nan_mem :
    ∀ (l : List RVal) (acc : RVal), RVal.nan ∈ l → l.foldl RVal.add acc = RVal.nan := by
  intro l
  induction l with
  | nil => intro acc h; exact absurd h (by simp)
  | cons a l ih =>
    intro acc h
    rcases List.mem_cons.mp h with h0 | h0
    · subst h0
      simpa [List.foldl, RVal.add_nan_right] using RVal.foldl_add_acc_nan l
    · exact ih (acc.add a) h0

theorem RVal.sum_nan {l : List RVal} (h : RVal.nan ∈ l) : RVal.sum l = RVal.nan :=
  RVal.foldl_add_nan_mem l (RVal.val 0) h

theorem RVal.mean_nan {l : List RVal} (h : RVal.nan ∈ l) : RVal.mean l = RVal.nan := by
  simp [RVal.mean, RVal.sum_nan h, RVal.div_nan_left]

/-! Helper lemmas about qmax and qmin. -/

theorem foldl_max_acc_le :
    ∀ (l : List ℚ) (acc : ℚ), acc ≤ l.foldl max acc := by
  intro l
  induction l with
  | nil => intro acc; simp
  | cons a l ih =>
    intro acc
    exact le_trans (le_max_left acc a) (ih (max acc a))

theorem mem_le_foldl_max :
    ∀ (l : List ℚ) (acc x : ℚ), x ∈ l → x ≤ l.foldl max acc := by
  intro l
  induction l with
  | nil => intro acc x h; exact absurd h (by simp)
  | cons a l ih =>
    intro acc x h
    rcases List.mem_cons.mp h with h0 | h0
    · subst h0
      exact le_trans (le_max_right acc x) (foldl_max_acc_le l (max acc x))
    · exact ih (max acc a) x h0

theorem foldl_min_le_acc :
    ∀ (l : List ℚ) (acc : ℚ), l.foldl min acc ≤ acc := by
  intro l
  induction l with
  | nil => intro acc; simp
  | cons a l ih =>
    intro acc
    exact le_trans (ih (min acc a)) (min_le_left acc a)

theorem foldl_min_le_mem :
    ∀ (l : List ℚ) (acc x : ℚ), x ∈ l → l.foldl min acc ≤ x := by
  intro l
  induction l with
  | nil => intro acc x h; exact absurd h (by simp)
  | cons a l ih =>
    intro acc x h
    rcases List.mem_cons.mp h with h0 | h0
    · subst h0
      exact le_trans (foldl_min_le_acc l (min acc x)) (min_le_right acc x)
    · exact ih (min acc a) x h0

theorem le_qmax {l : List ℚ} {x : ℚ} (h : x ∈ l) : x ≤ qmax l := by
  cases l with
  | nil => exact absurd h (by simp)
  | cons a l =>
    rcases List.mem_cons.mp h with h0 | h0
    · subst h0; exact foldl_max_acc_le l x
    · exact mem_le_foldl_max l a x h0

theorem qmin_le {l : List ℚ} {x : ℚ} (h : x ∈ l) : qmin l ≤ x := by
  cases l with
  | nil => exact absurd h (by simp)
  | cons a l =>
    rcases List.mem_cons.mp h with h0 | h0
    · subst h0; exact foldl_min_le_acc l x
    · exact foldl_min_le_mem l a x h0

theorem qmax_ne_qmin_of_two {l : List ℚ} {a b : ℚ}
    (ha : a ∈ l) (hb : b ∈ l) (hab : a ≠ b) : qmax l ≠ qmin l := by
  intro h
  rcases lt_or_gt_of_ne hab with hlt | hlt
  · have h1 : qmin l ≤ a := qmin_le ha
    have h2 : b ≤ qmax l := le_qmax hb
    rw [h] at h2
    exact absurd (lt_of_le_of_lt (le_trans h2 h1) hlt) (lt_irrefl b)
  · have h1 : qmin l ≤ b := qmin_le hb
    have h2 : a ≤ qmax l := le_qmax ha
    rw [h] at h2
    exact absurd (lt_of_le_of_lt (le_trans h2 h1) hlt) (lt_irrefl a)

theorem foldl_max_const {q : ℚ} :
    ∀ {l : List ℚ}, (∀ x ∈ l, x = q) → l.foldl max q = q := by
  intro l
  induction l with
  | nil => intro _; rfl
  | cons a l ih =>
    intro h
    have ha : a = q := h a (List.mem_cons_self a l)
    rw [ha]
    simpa using ih (fun x hx => h x (List.mem_cons_of_mem a hx))

theorem foldl_min_const {q : ℚ} :
    ∀ {l : List ℚ}, (∀ x ∈ l, x = q) → l.foldl min q = q := by
  intro l
  induction l with
  | nil => intro _; rfl
  | cons a l ih =>
    intro h
    have ha : a = q := h a (List.mem_cons_self a l)
    rw [ha]
    simpa using ih (fun x hx => h x (List.mem_cons_of_mem a hx))

theorem qmax_eq_qmin_of_const {l : List ℚ} {q : ℚ}
    (h : ∀ x ∈ l, x = q) : qmax l = qmin l := by
  cases l with
  | nil => rfl
  | cons a l =>
    have ha : a = q := h a (List.mem_cons_self a l)
    have hq : ∀ x ∈ l, x = q := fun x hx => h x (List.mem_cons_of_mem a hx)
    rw [qmax, qmin, ha, foldl_max_const hq, foldl_min_const hq]

/-! Helper lemmas about sums of squares. -/

theorem list_sum_zero_of_nonneg :
    ∀ {l : List ℚ}, (∀ x ∈ l, 0 ≤ x) → l.sum = 0 → ∀ x ∈ l, x = 0 := by
  intro l
  induction l with
  | nil => intro _ _ x hx; exact absurd hx (by simp)
  | cons a l ih =>
    intro hpos hsum x hx
    have ha : 0 ≤ a := hpos a (by simp)
    have hl : 0 ≤ l.sum := List.sum_nonneg (fun y hy => hpos y (by simp [hy]))
    rw [List.sum_cons] at hsum
    have ha0 : a = 0 := by linarith
    have hls : l.sum = 0 := by linarith
    rcases List.mem_cons.mp hx with h0 | h0
    · exact h0 ▸ ha0
    · exact ih (fun y hy => hpos y (by simp [hy])) hls x h0

/-- If two distinct values occur in the sample, the averaged sum of
squared deviations from the mean (the ssxm of linregress) is nonzero. -/
theorem ssxmOf_ne_zero {x : List ℚ} {a b : ℚ}
    (ha : a ∈ x) (hb : b ∈ x) (hab : a ≠ b) :
    ssxmOf x ≠ 0 := by
  rw [ssxmOf, xmeanOf]
  set m : ℚ := x.sum / (x.length : ℚ) with hm
  intro h
  have hlen : (x.length : ℚ) ≠ 0 := by
    have : x ≠ [] := by rintro rfl; exact absurd ha (by simp)
    have hpos : 0 < x.length := List.length_pos.mpr this
    exact_mod_cast Nat.pos_iff_ne_zero.mp hpos
  have hsum : (x.map (fun xi => (xi - m) * (xi - m))).sum = 0 := by
    rcases div_eq_zero_iff.mp h with h0 | h0
    · exact h0
    · exact absurd h0 hlen
  have hall : ∀ y ∈ x.map (fun xi => (xi - m) * (xi - m)), y = 0 :=
    list_sum_zero_of_nonneg
      (by
        intro y hy
        obtain ⟨xi, _, hxi⟩ := List.mem_map.mp hy
        rw [← hxi]
        exact mul_self_nonneg _)
      hsum
  have hmem : ∀ xi ∈ x, xi = m := by
    intro xi hxi
    have := hall ((xi - m) * (xi - m)) (List.mem_map.mpr ⟨xi, hxi, rfl⟩)
    have hz : xi - m = 0 := by
      by_contra hne
      exact absurd this (mul_ne_zero hne hne)
    linarith
  exact hab ((hmem a ha).trans (hmem b hb).symm)

/-! Helper lemmas about convertT. -/

theorem convertT_ret_none_iff {o : Option (List TimeVal)} :
    convertT o = .ret none ↔ o = none := by
  cases o with
  | none => simp [convertT]
  | some ts =>
    simp only [convertT]
    cases ts with
    | nil => simp
    | cons t rest =>
      cases t with
      | cf y m d =>
        cases hm : mapE cfNumeric (TimeVal.cf y m d :: rest) with
        | error e => simp [hm]
        | ok nums =>
          by_cases hl : nums.length < 2 <;> simp [hm, hl]
      | std r yy f =>
        cases hm : mapE stdFloat (TimeVal.std r yy f :: rest) with
        | error e => simp [hm]
        | ok nums => simp [hm]

theorem time_isSome_of_convert_ret_some {ds : Dataset} {nums : List ℚ}
    (h : convert_time_to_numeric ds = .ret (some nums)) :
    ∃ ts, ds.time = some ts := by
  cases hts : ds.time with
  | none =>
    rw [convert_time_to_numeric, hts] at h
    exact absurd h (by simp [convertT])
  | some ts => exact ⟨ts, rfl⟩

/-! Helper lemmas about linregress. -/

/-- When the three ValueError guards pass, linregress returns normally. -/
theorem linregress_isOk {ops : FloatOps} {x : List ℚ} {y : List RVal}
    (hx0 : x.length ≠ 0) (hy0 : y.length ≠ 0)
    (hvar : ¬(qmax x = qmin x ∧ 1 < x.length)) (hxy : x.length = y.length) :
    linregress ops x y = .ok (slopeOf x y, probOf ops x y) := by
  rw [linregress]
  rw [if_neg (by push_neg; exact ⟨hx0, hy0⟩), if_neg hvar, if_neg (by simpa using hxy)]

/-- A NaN anywhere in the observation series makes ssxym NaN. -/
theorem ssxymOf_nan {x : List ℚ} {y : List RVal}
    (hx0 : x ≠ []) (hy0 : y ≠ []) (hnan : RVal.nan ∈ y) :
    ssxymOf x y = RVal.nan := by
  cases x with
  | nil => exact absurd rfl hx0
  | cons x0 xs =>
    cases y with
    | nil => exact absurd rfl hy0
    | cons y0 ys =>
      rw [ssxymOf]
      apply RVal.mean_nan
      rw [RVal.mean_nan hnan, List.zipWith_cons_cons]
      have hhd : (RVal.val (x0 - xmeanOf (x0 :: xs))).mul (y0.sub RVal.nan) = RVal.nan := by
        rw [RVal.sub_nan_right, RVal.mul_nan_right]
      rw [hhd]
      exact List.mem_cons_self _ _

/-- A NaN anywhere in the observation series makes ssym NaN. -/
theorem ssymOf_nan {y : List RVal} (hy0 : y ≠ []) (hnan : RVal.nan ∈ y) :
    ssymOf y = RVal.nan := by
  cases y with
  | nil => exact absurd rfl hy0
  | cons y0 ys =>
    rw [ssymOf]
    apply RVal.mean_nan
    rw [RVal.mean_nan hnan, List.map_cons]
    have hhd : (y0.sub RVal.nan).mul (y0.sub RVal.nan) = RVal.nan := by
      rw [RVal.sub_nan_right, RVal.mul_nan_left]
    rw [hhd]
    exact List.mem_cons_self _ _

/-- A NaN in the observation series, over a time axis with two distinct
values, makes the r value NaN. -/
theorem rOf_nan (ops : FloatOps) {x : List ℚ} {y : List RVal} {a b : ℚ}
    (ha : a ∈ x) (hb : b ∈ x) (hab : a ≠ b)
    (hy0 : y ≠ []) (hnan : RVal.nan ∈ y) :
    rOf ops x y = RVal.nan := by
  have hx0 : x ≠ [] := by rintro rfl; exact absurd ha (by simp)
  have hssym := ssymOf_nan hy0 hnan
  have hssxym := ssxymOf_nan hx0 hy0 hnan
  rw [rOf, hssym, hssxym]
  rw [if_neg (by
    rintro (h | h)
    · exact ssxmOf_ne_zero ha hb hab h
    · rw [RVal.beq_nan_left] at h; exact absurd h (by simp))]
  rw [RVal.mul_nan_right, RVal.sqrtW_nan, RVal.div_nan_left]
  rfl

/-- A NaN in the observation series makes the slope NaN. -/
theorem slopeOf_nan {x : List ℚ} {y : List RVal}
    (hx0 : x ≠ []) (hy0 : y ≠ []) (hnan : RVal.nan ∈ y) :
    slopeOf x y = RVal.nan := by
  rw [slopeOf, ssxymOf_nan hx0 hy0 hnan, RVal.div_nan_left]

/-- A NaN in the observation series, over a time axis of length at least
three with two distinct values, makes the p-value NaN. -/
theorem probOf_nan {ops : FloatOps} {x : List ℚ} {y : List RVal} {a b : ℚ}
    (hx3 : 3 ≤ x.length) (ha : a ∈ x) (hb : b ∈ x) (hab : a ≠ b)
    (hy0 : y ≠ []) (hnan : RVal.nan ∈ y) :
    probOf ops x y = RVal.nan := by
  have hr := rOf_nan ops ha hb hab hy0 hnan
  rw [probOf, if_neg (by omega), hr]
  simp only [RVal.mul_nan_left]

/-- A NaN in the observation series yields NaN slope and NaN p-value,
inside a normally-returned linregress result (no exception is raised):
scipy silently carries the NaN through means, covariances and the
t statistic. -/
theorem linregress_nan {ops : FloatOps} {x : List ℚ} {y : List RVal} {a b : ℚ}
    (hx3 : 3 ≤ x.length) (hxy : x.length = y.length)
    (ha : a ∈ x) (hb : b ∈ x) (hab : a ≠ b) (hnan : RVal.nan ∈ y) :
    linregress ops x y = .ok (RVal.nan, RVal.nan) := by
  have hx0 : x ≠ [] := by rintro rfl; exact absurd ha (by simp)
  have hy0 : y ≠ [] := by
    rintro rfl
    rw [List.length_nil] at hxy
    omega
  rw [linregress_isOk (by omega) (by omega)
    (by rintro ⟨h, _⟩; exact qmax_ne_qmin_of_two ha hb hab h) hxy]
  rw [slopeOf_nan hx0 hy0 hnan, probOf_nan hx3 ha hb hab hy0 hnan]

/-! Claim C7. -/

/-- Claim C7: for every non-standard-calendar timestamp of a time axis on
which the normalizer succeeds, the numeric value produced for it is
year + month / 12, the day of month being ignored (the theorem holds for
every day value d); in particular year 1850, month 3 maps to
1850 + 3 / 12 = 1850.25. -/
theorem c7_cf_fractional_year (ds : Dataset) (ts : List TimeVal) (nums : List ℚ)
    (i : ℕ) (hts : ds.time = some ts)
    (hc : convert_time_to_numeric ds = .ret (some nums))
    (hi : i < ts.length) (y m d : Int) (he : ts.get ⟨i, hi⟩ = .cf y m d) :
    ∃ hi2 : i < nums.length, nums.get ⟨i, hi2⟩ = (y : ℚ) + (m : ℚ) / 12 := by
  rw [convert_time_to_numeric, hts] at hc
  cases ts with
  | nil => exact absurd hi (by simp)
  | cons t rest =>
    cases t with
    | cf y0 m0 d0 =>
      simp only [convertT] at hc
      cases hm : mapE cfNumeric (TimeVal.cf y0 m0 d0 :: rest) with
      | error e => simp only [hm] at hc; exact absurd hc (by simp)
      | ok nums0 =>
        simp only [hm] at hc
        by_cases hl : nums0.length < 2
        · rw [if_pos hl] at hc; exact absurd hc (by simp)
        · rw [if_neg hl] at hc
          simp only [PyOutcome.ret.injEq, Option.some.injEq] at hc
          subst hc
          have hlen := mapE_ok_length hm
          have hi2 : i < nums0.length := by omega
          refine ⟨hi2, ?_⟩
          have hg := mapE_ok_get hm i hi hi2
          rw [he] at hg
          simp only [cfNumeric, Except.ok.injEq] at hg
          exact hg.symm
    | std r0 yy0 f0 =>
      simp only [convertT] at hc
      cases hm : mapE stdFloat (TimeVal.std r0 yy0 f0 :: rest) with
      | error e => simp only [hm] at hc; exact absurd hc (by simp)
      | ok nums0 =>
        simp only [hm] at hc
        simp only [PyOutcome.ret.injEq, Option.some.injEq] at hc
        subst hc
        have hi2 : i < nums0.length := by
          have := mapE_ok_length hm
          omega
        have hg := mapE_ok_get hm i hi hi2
        rw [he] at hg
        exact absurd hg (by simp [stdFloat])

/-- Witness for C7: the concrete calendar axis [1850-03-07, 1850-04-01]
is normalized to [1850 + 3 / 12, 1850 + 4 / 12]; the first entry equals
1850.25 although its day of month is 7. -/
theorem c7_witness :
    convert_time_to_numeric ⟨[], some [TimeVal.cf 1850 3 7, TimeVal.cf 1850 4 1]⟩
      = .ret (some [((1850 : Int) : ℚ) + ((3 : Int) : ℚ) / 12,
                    ((1850 : Int) : ℚ) + ((4 : Int) : ℚ) / 12]) ∧
    (∃ h2 : 0 < ([((1850 : Int) : ℚ) + ((3 : Int) : ℚ) / 12,
                  ((1850 : Int) : ℚ) + ((4 : Int) : ℚ) / 12]).length,
      ([((1850 : Int) : ℚ) + ((3 : Int) : ℚ) / 12,
        ((1850 : Int) : ℚ) + ((4 : Int) : ℚ) / 12]).get ⟨0, h2⟩
        = ((1850 : Int) : ℚ) + ((3 : Int) : ℚ) / 12) ∧
    ((1850 : Int) : ℚ) + ((3 : Int) : ℚ) / 12 = (7401 : ℚ) / 4 := by
  have hc : convert_time_to_numeric ⟨[], some [TimeVal.cf 1850 3 7, TimeVal.cf 1850 4 1]⟩
      = .ret (some [((1850 : Int) : ℚ) + ((3 : Int) : ℚ) / 12,
                    ((1850 : Int) : ℚ) + ((4 : Int) : ℚ) / 12]) := rfl
  refine ⟨hc, ?_, by norm_num⟩
  exact c7_cf_fractional_year ⟨[], some [TimeVal.cf 1850 3 7, TimeVal.cf 1850 4 1]⟩
    [TimeVal.cf 1850 3 7, TimeVal.cf 1850 4 1] _ 0 rfl hc (by decide) 1850 3 7 rfl

/-! Claim C5. -/

/-- Claim C5 counterexample: a present-but-empty time axis makes the
normalizer raise an uncaught IndexError (reading time_var.values[0] for
the isinstance test), a crash, rather than returning a distinct
EmptyTimeAxis error value; absence of a time coordinate returns the
failure value None. -/
theorem c5_counterexample :
    convert_time_to_numeric ⟨[], some []⟩ = .exn "IndexError" ∧
    convert_time_to_numeric ⟨[], none⟩ = .ret none :=
  ⟨rfl, rfl⟩

/-- Claim C5 amended: the normalizer does distinguish the two cases, but
not as two returned error kinds: with no time coordinate at all it
returns the failure value None (the MissingTimeAxis case of the spec),
while a present-but-empty time axis raises an uncaught IndexError — a
crash, not an EmptyTimeAxis error surfaced to the caller. -/
theorem c5_amended (ds : Dataset) :
    (ds.time = none → convert_time_to_numeric ds = .ret none) ∧
    (ds.time = some [] → convert_time_to_numeric ds = .exn "IndexError") := by
  constructor
  · intro h; rw [convert_time_to_numeric, h]; rfl
  · intro h; rw [convert_time_to_numeric, h]; rfl

/-- Witness for the amended C5, at a dataset with no time coordinate and
at a dataset with a present-but-empty time axis. -/
theorem c5_witness :
    convert_time_to_numeric ⟨[("TS", [])], none⟩ = .ret none ∧
    convert_time_to_numeric ⟨[("TS", [])], some []⟩ = .exn "IndexError" :=
  ⟨(c5_amended ⟨[("TS", [])], none⟩).1 rfl,
   (c5_amended ⟨[("TS", [])], some []⟩).2 rfl⟩

/-! Claim C2. -/

/-- The time axis of the C2 counterexample: two standard datetime64
values, one and two days after the 1970-01-01 epoch.  Their raw
representations (day counts since the epoch, the numbers astype(float)
yields) are 1 and 2; their calendar readings are year 1970 with 1/365
and 2/365 of the year elapsed. -/
def dsC2tv : List TimeVal := [TimeVal.std 1 1970 (1 / 365), TimeVal.std 2 1970 (2 / 365)]

/-- The C2 counterexample dataset. -/
def dsC2 : Dataset := ⟨[], some dsC2tv⟩

/-- Claim C2 counterexample: on the standard-value time axis dsC2tv the
code path returns the raw epoch-based counts cast to float, [1, 2] —
not the fractional years 1970 + 1/365 and 1970 + 2/365 that the claim
prescribes (each value converted via its calendar year plus the fraction
of the year elapsed to the day). -/
theorem c2_counterexample :
    convert_time_to_numeric dsC2 = .ret (some [1, 2]) ∧
    dsC2tv.map specFracYear = [1970 + 1 / 365, 1970 + 2 / 365] ∧
    ([1, 2] : List ℚ) ≠ [1970 + 1 / 365, 1970 + 2 / 365] := by
  refine ⟨rfl, ?_, ?_⟩
  · norm_num [dsC2tv, specFracYear]
  · norm_num

/-- Claim C2 amended: for every non-empty time axis whose values are all
standard (non-calendar-object) values, convert_time_to_numeric returns
each value cast to float unchanged — the raw machine representation
(ts.map TimeVal.rawFloat) — not a fractional year derived from the
calendar year and the elapsed fraction of the year. -/
theorem c2_amended (ds : Dataset) (ts : List TimeVal)
    (hts : ds.time = some ts) (hne : ts ≠ [])
    (hstd : ∀ t ∈ ts, ∃ r yy f, t = TimeVal.std r yy f) :
    convert_time_to_numeric ds = .ret (some (ts.map TimeVal.rawFloat)) := by
  rw [convert_time_to_numeric, hts]
  cases ts with
  | nil => exact absurd rfl hne
  | cons t rest =>
    obtain ⟨r, yy, f, ht⟩ := hstd t (List.mem_cons_self t rest)
    subst ht
    have hmap : mapE stdFloat (TimeVal.std r yy f :: rest)
        = .ok ((TimeVal.std r yy f :: rest).map TimeVal.rawFloat) := by
      apply mapE_congr
      intro a ha
      obtain ⟨r2, y2, f2, ha2⟩ := hstd a ha
      subst ha2
      rfl
    simp only [convertT, hmap]

/-- Witness for the amended C2 at a concrete all-standard axis with raw
representations 5 and 6. -/
theorem c2_witness :
    convert_time_to_numeric ⟨[], some [TimeVal.std 5 1970 0, TimeVal.std 6 1970 0]⟩
      = .ret (some [5, 6]) := by
  have h := c2_amended ⟨[], some [TimeVal.std 5 1970 0, TimeVal.std 6 1970 0]⟩
    [TimeVal.std 5 1970 0, TimeVal.std 6 1970 0] rfl (by simp)
    (by
      intro t ht
      rcases List.mem_cons.mp ht with h1 | h1
      · exact ⟨5, 1970, 0, h1⟩
      · rcases List.mem_cons.mp h1 with h2 | h2
        · exact ⟨6, 1970, 0, h2⟩
        · exact absurd h2 (by simp))
  simpa [TimeVal.rawFloat] using h

/-! Claim C1. -/

/-- The C1 counterexample dataset: a variable with one sample and a time
axis holding exactly one non-standard-calendar timestamp. -/
def dsC1 : Dataset := ⟨[("T", [[RVal.val 1]])], some [TimeVal.cf 1850 3 1]⟩

/-- Claim C1 counterexample: with a single non-standard-calendar
timestamp, compute_linear_trend crashes with an uncaught IndexError
(raised inside the time conversion while printing the frequency
diagnostic, which reads numeric_time[1]); it does not reach the
length-under-2 check, so it does not fail with InsufficientSamples. -/
theorem c1_counterexample :
    compute_linear_trend ops0 dsC1 "T" = .exn "IndexError" ∧
    compute_linear_trend ops0 dsC1 "T" ≠ .err .insufficientSamples := by
  refine ⟨rfl, ?_⟩
  intro h
  rw [show compute_linear_trend ops0 dsC1 "T" = .exn "IndexError" from rfl] at h
  exact TrendOutcome.noConfusion h

/-- Claim C1 amended: for a dataset whose time axis holds exactly one
timestamp and whose requested variable exists, compute_linear_trend
fails at the length-under-2 site (the InsufficientSamples check) when
that timestamp is a standard date value, but crashes with an uncaught
IndexError inside the time conversion when it is a
non-standard-calendar object. -/
theorem c1_amended (ops : FloatOps) (ds : Dataset) (v : String)
    (fld : List (List RVal)) (t : TimeVal)
    (hv : ds.vars.lookup v = some fld) (hts : ds.time = some [t]) :
    ((∃ r yy f, t = TimeVal.std r yy f) →
      compute_linear_trend ops ds v = .err .insufficientSamples) ∧
    ((∃ y m d, t = TimeVal.cf y m d) →
      compute_linear_trend ops ds v = .exn "IndexError") := by
  constructor
  · rintro ⟨r, yy, f, rfl⟩
    have hc : convert_time_to_numeric ds = .ret (some [r]) := by
      rw [convert_time_to_numeric, hts]; rfl
    simp [compute_linear_trend, hv, hts, hc]
  · rintro ⟨y, m, d, rfl⟩
    have hc : convert_time_to_numeric ds = .exn "IndexError" := by
      rw [convert_time_to_numeric, hts]; rfl
    simp [compute_linear_trend, hv, hts, hc]

/-- Witness for the amended C1, at the two single-timestamp datasets. -/
theorem c1_witness :
    compute_linear_trend ops0 ⟨[("T", [[RVal.val 1]])], some [TimeVal.std 5 1970 0]⟩ "T"
      = .err .insufficientSamples ∧
    compute_linear_trend ops0 ⟨[("T", [[RVal.val 1]])], some [TimeVal.cf 1850 3 1]⟩ "T"
      = .exn "IndexError" :=
  ⟨(c1_amended ops0 ⟨[("T", [[RVal.val 1]])], some [TimeVal.std 5 1970 0]⟩ "T"
      [[RVal.val 1]] (TimeVal.std 5 1970 0) rfl rfl).1 ⟨5, 1970, 0, rfl⟩,
   (c1_amended ops0 ⟨[("T", [[RVal.val 1]])], some [TimeVal.cf 1850 3 1]⟩ "T"
      [[RVal.val 1]] (TimeVal.cf 1850 3 1) rfl rfl).2 ⟨1850, 3, 1, rfl⟩⟩

/-! Claim C4. -/

/-- The first C4 dataset: the requested variable is absent (precondition
1 violated). -/
def dsC4a : Dataset := ⟨[], some [TimeVal.std 0 1970 0, TimeVal.std 1 1970 0]⟩

/-- The second C4 dataset: the variable exists but the time axis has one
point (precondition 4 violated). -/
def dsC4b : Dataset := ⟨[("T", [[RVal.val 1]])], some [TimeVal.std 0 1970 0]⟩

/-- Claim C4 counterexample: two datasets violating different
preconditions (missing variable, and fewer than two time points) make
compute_linear_trend take two different failure sites, yet the values
the caller observes are identical — (None, None) both times — so the
caller cannot tell the error kinds apart. -/
theorem c4_counterexample :
    compute_linear_trend ops0 dsC4a "T" = .err .variableNotFound ∧
    compute_linear_trend ops0 dsC4b "T" = .err .insufficientSamples ∧
    (compute_linear_trend ops0 dsC4a "T").toPy = (compute_linear_trend ops0 dsC4b "T").toPy :=
  ⟨rfl, rfl, rfl⟩

/-- Claim C4 amended: compute_linear_trend checks its preconditions in
the stated order — named variable exists, then time axis exists, then
time normalization, then length at least 2 — and each violated check
returns from its own distinct site; but every site returns the identical
value (None, None), so the caller cannot tell the kinds apart, and the
normalization-failure site is unreachable (the conversion returns None
only when the time axis is absent, which the previous check has already
caught; its other failures are uncaught exceptions). -/
theorem c4_amended (ops : FloatOps) (ds : Dataset) (v : String) :
    (ds.vars.lookup v = none →
      compute_linear_trend ops ds v = .err .variableNotFound) ∧
    (∀ fld, ds.vars.lookup v = some fld → ds.time = none →
      compute_linear_trend ops ds v = .err .timeAxisNotFound) ∧
    (compute_linear_trend ops ds v ≠ .err .normalizationFailed) ∧
    (∀ fld nums, ds.vars.lookup v = some fld →
      convert_time_to_numeric ds = .ret (some nums) → nums.length < 2 →
      compute_linear_trend ops ds v = .err .insufficientSamples) ∧
    (∀ e1 e2 : TrendError, TrendOutcome.toPy (.err e1) = TrendOutcome.toPy (.err e2)) := by
  refine ⟨?_, ?_, ?_, ?_, ?_⟩
  · intro h
    simp [compute_linear_trend, h]
  · intro fld hv ht
    simp [compute_linear_trend, hv, ht]
  · cases hv : ds.vars.lookup v with
    | none => simp [compute_linear_trend, hv]
    | some fld =>
      cases hts : ds.time with
      | none => simp [compute_linear_trend, hv, hts]
      | some ts =>
        cases hco : convert_time_to_numeric ds with
        | exn e => simp [compute_linear_trend, hv, hts, hco]
        | ret o =>
          cases o with
          | none =>
            have : ds.time = none := by
              rw [convert_time_to_numeric] at hco
              exact convertT_ret_none_iff.mp hco
            rw [hts] at this
            exact absurd this (by simp)
          | some nums =>
            simp only [compute_linear_trend, hv, hts, hco]
            by_cases hl : nums.length < 2
            · simp [hl]
            · simp only [hl, if_false]
              cases hm : mapE (linregress ops nums) fld with
              | error e => simp [hm]
              | ok res => simp [hm]
  · intro fld nums hv hc hl
    obtain ⟨ts, hts⟩ := time_isSome_of_convert_ret_some hc
    simp [compute_linear_trend, hv, hts, hc, hl]
  · intro e1 e2
    rfl

/-- Witness for the amended C4: the order facts instantiated at the two
concrete datasets of the counterexample, plus the shared caller-visible
value. -/
theorem c4_witness :
    compute_linear_trend ops0 dsC4a "Q" = .err .variableNotFound ∧
    compute_linear_trend ops0 dsC4b "T" = .err .insufficientSamples ∧
    TrendOutcome.toPy (.err .variableNotFound) = TrendOutcome.toPy (.err .insufficientSamples) :=
  ⟨(c4_amended ops0 dsC4a "Q").1 rfl,
   (c4_amended ops0 dsC4b "T").2.2.2.1 [[RVal.val 1]] [0] rfl rfl (by decide),
   (c4_amended ops0 dsC4b "T").2.2.2.2 .variableNotFound .insufficientSamples⟩

/-! Claim C10. -/

/-- Claim C10: every failure return of compute_linear_trend — whichever
of the five sites produced it — is observed by the caller as exactly the
pair (None, None); a regression exception for even one coordinate fails
the whole computation atomically at the regressionFailed site; and no
two failure kinds are distinguishable through the returned value. -/
theorem c10_uniform_failure_value (ops : FloatOps) (ds : Dataset) (v : String) :
    (∀ e, compute_linear_trend ops ds v = .err e →
      (compute_linear_trend ops ds v).toPy = .ret (none, none)) ∧
    (∀ fld nums, ds.vars.lookup v = some fld →
      convert_time_to_numeric ds = .ret (some nums) → ¬nums.length < 2 →
      ∀ i (hi : i < fld.length) e0,
        linregress ops nums (fld.get ⟨i, hi⟩) = .error e0 →
        compute_linear_trend ops ds v = .err .regressionFailed) ∧
    (∀ e1 e2 : TrendError, TrendOutcome.toPy (.err e1) = TrendOutcome.toPy (.err e2)) := by
  refine ⟨?_, ?_, ?_⟩
  · intro e h
    rw [h]
    rfl
  · intro fld nums hv hc hl i hi e0 hlin
    obtain ⟨ts, hts⟩ := time_isSome_of_convert_ret_some hc
    simp only [compute_linear_trend, hv, hts, hc, hl, if_false]
    cases hm : mapE (linregress ops nums) fld with
    | error e => simp [hm]
    | ok res =>
      obtain ⟨b, hb⟩ := mapE_ok_mem hm (fld.get ⟨i, hi⟩) (List.get_mem fld i hi)
      rw [hlin] at hb
      exact absurd hb (by simp)
  · intro e1 e2
    rfl

/-- Witness for C10: a zero-variance time axis makes the very first
per-coordinate regression raise, and the whole computation fails
atomically at the regressionFailed site. -/
theorem c10_witness :
    compute_linear_trend ops0
      ⟨[("T", [[RVal.val 1, RVal.val 2, RVal.val 3]])],
       some [TimeVal.std 7 0 0, TimeVal.std 7 0 0, TimeVal.std 7 0 0]⟩ "T"
      = .err .regressionFailed := by
  have hlin : linregress ops0 [7, 7, 7] [RVal.val 1, RVal.val 2, RVal.val 3]
      = .error "ValueError: Cannot calculate a linear regression if all x values are identical" := by
    norm_num [linregress, qmax, qmin]
  exact (c10_uniform_failure_value ops0
      ⟨[("T", [[RVal.val 1, RVal.val 2, RVal.val 3]])],
       some [TimeVal.std 7 0 0, TimeVal.std 7 0 0, TimeVal.std 7 0 0]⟩ "T").2.1
    [[RVal.val 1, RVal.val 2, RVal.val 3]] [7, 7, 7] rfl rfl (by norm_num)
    0 (by norm_num) _ (by simpa using hlin)

/-! Claim C6. -/

/-- Claim C6: a numeric time axis of length at least two whose values
are all identical (zero variance) makes every per-coordinate regression
raise the identical-x ValueError, which the try/except turns into the
regressionFailed failure; no division-by-zero exception escapes to the
caller and no NaN is returned as a success. -/
theorem c6_zero_variance (ops : FloatOps) (ds : Dataset) (v : String)
    (fld : List (List RVal)) (nums : List ℚ) (q : ℚ)
    (hv : ds.vars.lookup v = some fld) (hne : fld ≠ [])
    (hc : convert_time_to_numeric ds = .ret (some nums))
    (hlen : 2 ≤ nums.length) (hq : ∀ x ∈ nums, x = q) :
    compute_linear_trend ops ds v = .err .regressionFailed ∧
    (compute_linear_trend ops ds v).toPy = .ret (none, none) := by
  obtain ⟨ts, hts⟩ := time_isSome_of_convert_ret_some hc
  have hmain : compute_linear_trend ops ds v = .err .regressionFailed := by
    cases fld with
    | nil => exact absurd rfl hne
    | cons f0 rest =>
      have hlin : ∃ e, linregress ops nums f0 = .error e := by
        by_cases hf : f0.length = 0
        · exact ⟨"ValueError: Inputs must not be empty.",
            by rw [linregress, if_pos (Or.inr hf)]⟩
        · exact ⟨"ValueError: Cannot calculate a linear regression if all x values are identical",
            by rw [linregress, if_neg (by push_neg; exact ⟨by omega, hf⟩),
              if_pos ⟨qmax_eq_qmin_of_const hq, by omega⟩]⟩
      obtain ⟨e, he⟩ := hlin
      have hl2 : ¬nums.length < 2 := by omega
      simp only [compute_linear_trend, hv, hts, hc, hl2, if_false]
      simp [mapE, he]
  exact ⟨hmain, by rw [hmain]; rfl⟩

/-- Witness for C6 at the degenerate time axis [5, 5, 5]. -/
theorem c6_witness :
    compute_linear_trend ops0
      ⟨[("T", [[RVal.val 1, RVal.val 2, RVal.val 3]])],
       some [TimeVal.std 5 0 0, TimeVal.std 5 0 0, TimeVal.std 5 0 0]⟩ "T"
      = .err .regressionFailed ∧
    (compute_linear_trend ops0
      ⟨[("T", [[RVal.val 1, RVal.val 2, RVal.val 3]])],
       some [TimeVal.std 5 0 0, TimeVal.std 5 0 0, TimeVal.std 5 0 0]⟩ "T").toPy
      = .ret (none, none) :=
  c6_zero_variance ops0
    ⟨[("T", [[RVal.val 1, RVal.val 2, RVal.val 3]])],
     some [TimeVal.std 5 0 0, TimeVal.std 5 0 0, TimeVal.std 5 0 0]⟩ "T"
    [[RVal.val 1, RVal.val 2, RVal.val 3]] [5, 5, 5] 5
    rfl (by simp) rfl (by norm_num) (by decide)

/-! Claims C9 and C3 share the unfolding of a successful run. -/

/-- A successful compute_linear_trend run is exactly a successful
element-wise regression over the coordinate series. -/
theorem compute_ok_mapE {ops : FloatOps} {ds : Dataset} {v : String}
    {fld : List (List RVal)} {nums : List ℚ} {res : List (RVal × RVal)}
    (hv : ds.vars.lookup v = some fld)
    (hc : convert_time_to_numeric ds = .ret (some nums))
    (hok : compute_linear_trend ops ds v = .ok res) :
    mapE (linregress ops nums) fld = .ok res := by
  obtain ⟨ts, hts⟩ := time_isSome_of_convert_ret_some hc
  simp only [compute_linear_trend, hv, hts, hc] at hok
  by_cases hl : nums.length < 2
  · rw [if_pos hl] at hok
    exact absurd hok (by simp)
  · rw [if_neg hl] at hok
    cases hm : mapE (linregress ops nums) fld with
    | error e => rw [hm] at hok; exact absurd hok (by simp)
    | ok bs =>
      rw [hm] at hok
      simp only [TrendOutcome.ok.injEq] at hok
      rw [hok]

/-! Claim C9. -/

/-- Claim C9: on a successful run, the slope and p-value recorded for
each non-time coordinate are exactly the result of running the identical
1-dimensional regression on that coordinate series alone against the
numeric time axis; consequently, across any two datasets sharing the
time axis (in particular a permutation of the coordinates of the first),
coordinates carrying equal series receive equal results — no
value of a coordinate depends on the data of any other coordinate or on
the processing order. -/
theorem c9_coordinate_independence (ops : FloatOps) (ds : Dataset) (v : String)
    (fld : List (List RVal)) (nums : List ℚ) (res : List (RVal × RVal))
    (hv : ds.vars.lookup v = some fld)
    (hc : convert_time_to_numeric ds = .ret (some nums))
    (hok : compute_linear_trend ops ds v = .ok res) :
    (res.length = fld.length ∧
      ∀ i (hi : i < fld.length) (hi2 : i < res.length),
        linregress ops nums (fld.get ⟨i, hi⟩) = .ok (res.get ⟨i, hi2⟩)) ∧
    (∀ ds2 fld2 res2, ds2.time = ds.time →
      ds2.vars.lookup v = some fld2 →
      compute_linear_trend ops ds2 v = .ok res2 →
      ∀ i j (hi : i < fld.length) (hj : j < fld2.length)
        (hi2 : i < res.length) (hj2 : j < res2.length),
        fld.get ⟨i, hi⟩ = fld2.get ⟨j, hj⟩ →
        res.get ⟨i, hi2⟩ = res2.get ⟨j, hj2⟩) := by
  have hm := compute_ok_mapE hv hc hok
  refine ⟨⟨mapE_ok_length hm, fun i hi hi2 => mapE_ok_get hm i hi hi2⟩, ?_⟩
  intro ds2 fld2 res2 hteq hv2 hok2 i j hi hj hi2 hj2 hser
  have hc2 : convert_time_to_numeric ds2 = .ret (some nums) := by
    rw [convert_time_to_numeric] at hc ⊢
    rw [hteq]
    exact hc
  have hm2 := compute_ok_mapE hv2 hc2 hok2
  have h1 := mapE_ok_get hm i hi hi2
  have h2 := mapE_ok_get hm2 j hj hj2
  rw [← hser] at h2
  rw [h1] at h2
  simpa using h2

set_option maxHeartbeats 1000000 in
/-- Witness for C9 at a two-coordinate field over the time axis [0, 1]:
the first coordinate series [0, 1] has slope 1 and p-value 0, the second
series [5, 5] has slope 0 and p-value 1, and the first result equals the
standalone regression of its series. -/
theorem c9_witness :
    compute_linear_trend ops0
      ⟨[("T", [[RVal.val 0, RVal.val 1], [RVal.val 5, RVal.val 5]])],
       some [TimeVal.std 0 0 0, TimeVal.std 1 0 0]⟩ "T"
      = .ok [(RVal.val 1, RVal.val 0), (RVal.val 0, RVal.val 1)] ∧
    linregress ops0 [0, 1] [RVal.val 0, RVal.val 1] = .ok (RVal.val 1, RVal.val 0) := by
  have hvar : ¬(qmax [0, 1] = qmin [0, 1] ∧ 1 < ([(0 : ℚ), 1]).length) := by
    rintro ⟨h, _⟩
    have h0 : (0 : ℚ) ∈ [(0 : ℚ), 1] := by norm_num
    have h1 : (1 : ℚ) ∈ [(0 : ℚ), 1] := by norm_num
    exact qmax_ne_qmin_of_two h0 h1 (by norm_num) h
  have hlin1 : linregress ops0 [0, 1] [RVal.val 0, RVal.val 1]
      = .ok (RVal.val 1, RVal.val 0) := by
    rw [linregress_isOk (by norm_num) (by norm_num) hvar (by norm_num)]
    norm_num [slopeOf, ssxymOf, ssxmOf, xmeanOf, RVal.mean, RVal.sum,
      RVal.add, RVal.sub, RVal.mul, RVal.div, probOf, RVal.beq]
  have hlin2 : linregress ops0 [0, 1] [RVal.val 5, RVal.val 5]
      = .ok (RVal.val 0, RVal.val 1) := by
    rw [linregress_isOk (by norm_num) (by norm_num) hvar (by norm_num)]
    norm_num [slopeOf, ssxymOf, ssxmOf, xmeanOf, RVal.mean, RVal.sum,
      RVal.add, RVal.sub, RVal.mul, RVal.div, probOf, RVal.beq]
  have hv : (Dataset.mk [("T", [[RVal.val 0, RVal.val 1], [RVal.val 5, RVal.val 5]])]
      (some [TimeVal.std 0 0 0, TimeVal.std 1 0 0])).vars.lookup "T"
      = some [[RVal.val 0, RVal.val 1], [RVal.val 5, RVal.val 5]] := rfl
  have hts : (Dataset.mk [("T", [[RVal.val 0, RVal.val 1], [RVal.val 5, RVal.val 5]])]
      (some [TimeVal.std 0 0 0, TimeVal.std 1 0 0])).time
      = some [TimeVal.std 0 0 0, TimeVal.std 1 0 0] := rfl
  have hc : convert_time_to_numeric
      ⟨[("T", [[RVal.val 0, RVal.val 1], [RVal.val 5, RVal.val 5]])],
       some [TimeVal.std 0 0 0, TimeVal.std 1 0 0]⟩ = .ret (some [0, 1]) := rfl
  have hok : compute_linear_trend ops0
      ⟨[("T", [[RVal.val 0, RVal.val 1], [RVal.val 5, RVal.val 5]])],
       some [TimeVal.std 0 0 0, TimeVal.std 1 0 0]⟩ "T"
      = .ok [(RVal.val 1, RVal.val 0), (RVal.val 0, RVal.val 1)] := by
    simp [compute_linear_trend, hv, hts, hc, mapE, hlin1, hlin2]
  refine ⟨hok, ?_⟩
  have h := ((c9_coordinate_independence ops0
      ⟨[("T", [[RVal.val 0, RVal.val 1], [RVal.val 5, RVal.val 5]])],
       some [TimeVal.std 0 0 0, TimeVal.std 1 0 0]⟩ "T"
      [[RVal.val 0, RVal.val 1], [RVal.val 5, RVal.val 5]] [0, 1]
      [(RVal.val 1, RVal.val 0), (RVal.val 0, RVal.val 1)]
      rfl rfl hok).1).2 0 (by norm_num) (by norm_num)
  simpa using h

/-! Claim C3. -/

/-- The C3 dataset: a three-point standard time axis and one coordinate
whose series carries a NaN (a missing value) in the middle. -/
def dsC3 : Dataset :=
  ⟨[("T", [[RVal.val 1, RVal.nan, RVal.val 2]])],
   some [TimeVal.std 0 1970 0, TimeVal.std 1 1970 0, TimeVal.std 2 1970 0]⟩

/-- Claim C3 counterexample: with a missing value in the single
coordinate series, compute_linear_trend reports overall success and the
returned arrays carry NaN slope and NaN p-value for that coordinate —
the failure is not propagated as a RegressionFailed-style result. -/
theorem c3_counterexample :
    compute_linear_trend ops0 dsC3 "T" = .ok [(RVal.nan, RVal.nan)] ∧
    (compute_linear_trend ops0 dsC3 "T").toPy
      = .ret (some [RVal.nan], some [RVal.nan]) := by
  have hlin : linregress ops0 [0, 1, 2] [RVal.val 1, RVal.nan, RVal.val 2]
      = .ok (RVal.nan, RVal.nan) :=
    linregress_nan (by norm_num) (by norm_num)
      (show (0 : ℚ) ∈ [0, 1, 2] by norm_num)
      (show (1 : ℚ) ∈ [0, 1, 2] by norm_num)
      (by norm_num) (by decide)
  have hv : dsC3.vars.lookup "T" = some [[RVal.val 1, RVal.nan, RVal.val 2]] := rfl
  have hts : dsC3.time = some [TimeVal.std 0 1970 0, TimeVal.std 1 1970 0, TimeVal.std 2 1970 0] := rfl
  have hc : convert_time_to_numeric dsC3 = .ret (some [0, 1, 2]) := rfl
  have h : compute_linear_trend ops0 dsC3 "T" = .ok [(RVal.nan, RVal.nan)] := by
    simp [compute_linear_trend, hv, hts, hc, mapE, hlin]
  exact ⟨h, by rw [h]; rfl⟩

/-- Claim C3 amended: if some coordinate series contains a missing value
(NaN), over a well-shaped time axis of length at least three with two
distinct values, compute_linear_trend still reports success; that
coordinate receives NaN slope and NaN p-value inside the result.  The
missing values are neither dropped nor imputed, but no RegressionFailed
failure is produced either: the NaN travels silently inside a result
reported as success. -/
theorem c3_nan_inside_success (ops : FloatOps) (ds : Dataset) (v : String)
    (fld : List (List RVal)) (nums : List ℚ) (a b : ℚ) (i : ℕ)
    (hv : ds.vars.lookup v = some fld)
    (hc : convert_time_to_numeric ds = .ret (some nums))
    (hn : 3 ≤ nums.length)
    (ha : a ∈ nums) (hb : b ∈ nums) (hab : a ≠ b)
    (hshape : ∀ s ∈ fld, s.length = nums.length)
    (hi : i < fld.length) (hnan : RVal.nan ∈ fld.get ⟨i, hi⟩) :
    ∃ res, compute_linear_trend ops ds v = .ok res ∧
      res.length = fld.length ∧
      ∀ hi2 : i < res.length, res.get ⟨i, hi2⟩ = (RVal.nan, RVal.nan) := by
  obtain ⟨ts, hts⟩ := time_isSome_of_convert_ret_some hc
  have hallok : ∀ s ∈ fld, ∃ p, linregress ops nums s = .ok p := by
    intro s hs
    refine ⟨_, linregress_isOk (by omega) ?_ ?_ (hshape s hs).symm⟩
    · rw [hshape s hs]; omega
    · rintro ⟨hqq, _⟩
      exact qmax_ne_qmin_of_two ha hb hab hqq
  obtain ⟨res, hm⟩ := mapE_ok_of_forall hallok
  have hl2 : ¬nums.length < 2 := by omega
  refine ⟨res, ?_, mapE_ok_length hm, ?_⟩
  · simp [compute_linear_trend, hv, hts, hc, hl2, hm]
  · intro hi2
    have hg := mapE_ok_get hm i hi hi2
    rw [linregress_nan hn (hshape _ (List.get_mem fld i hi)).symm ha hb hab hnan] at hg
    simpa using hg.symm

/-- Witness for the amended C3 at the concrete dataset dsC3. -/
theorem c3_witness :
    ∃ res, compute_linear_trend ops0 dsC3 "T" = .ok res ∧
      res.length = 1 ∧
      ∀ h2 : 0 < res.length, res.get ⟨0, h2⟩ = (RVal.nan, RVal.nan) := by
  have h := c3_nan_inside_success ops0 dsC3 "T"
    [[RVal.val 1, RVal.nan, RVal.val 2]] [0, 1, 2] 0 1 0
    rfl rfl (by norm_num) (by norm_num) (by norm_num) (by norm_num)
    (by
      intro s hs
      rcases List.mem_cons.mp hs with h1 | h1
      · rw [h1]; rfl
      · exact absurd h1 (by simp))
    (by norm_num) (by decide)
  obtain ⟨res, h1, h2, h3⟩ := h
  exact ⟨res, h1, by simpa using h2, h3⟩

/-! Claim C8. -/

/-- Monotonicity of the year + month / 12 encoding under the calendar
order, for months in 1..12. -/
theorem cf_month_mono {y1 m1 y2 m2 : Int}
    (_hm1a : 1 ≤ m1) (hm1b : m1 ≤ 12) (hm2a : 1 ≤ m2) (hm2b : m2 ≤ 12)
    (h : y1 < y2 ∨ (y1 = y2 ∧ (m1 < m2 ∨ m1 = m2))) :
    (y1 : ℚ) + (m1 : ℚ) / 12 ≤ (y2 : ℚ) + (m2 : ℚ) / 12 := by
  have h1 : (m1 : ℚ) ≤ 12 := by exact_mod_cast hm1b
  have h2 : (1 : ℚ) ≤ (m2 : ℚ) := by exact_mod_cast hm2a
  rcases h with h | ⟨hy, h⟩
  · have h3 : (y1 : ℚ) + 1 ≤ (y2 : ℚ) := by
      have h4 : y1 + 1 ≤ y2 := by omega
      exact_mod_cast h4
    linarith
  · subst hy
    rcases h with h | h
    · have h3 : (m1 : ℚ) ≤ (m2 : ℚ) := by exact_mod_cast le_of_lt h
      linarith
    · subst h
      linarith

/-- Claim C8: on every non-empty, chronologically non-decreasing,
well-formed time axis on which the normalizer succeeds, the numeric time
sequence it returns has the same length as the input and is
non-decreasing. -/
theorem c8_monotone_normalization (ds : Dataset) (ts : List TimeVal) (nums : List ℚ)
    (hts : ds.time = some ts) (hvalid : ∀ t ∈ ts, t.valid)
    (hmono : List.Chain' TimeVal.le ts)
    (hc : convert_time_to_numeric ds = .ret (some nums)) :
    nums.length = ts.length ∧ List.Chain' (fun p q => p ≤ q) nums := by
  rw [convert_time_to_numeric, hts] at hc
  cases ts with
  | nil => exact absurd hc (by simp [convertT])
  | cons t rest =>
    cases t with
    | cf y0 m0 d0 =>
      simp only [convertT] at hc
      cases hm : mapE cfNumeric (TimeVal.cf y0 m0 d0 :: rest) with
      | error e => simp only [hm] at hc; exact absurd hc (by simp)
      | ok nums0 =>
        simp only [hm] at hc
        by_cases hl : nums0.length < 2
        · rw [if_pos hl] at hc; exact absurd hc (by simp)
        · rw [if_neg hl] at hc
          simp only [PyOutcome.ret.injEq, Option.some.injEq] at hc
          subst hc
          have hlen := mapE_ok_length hm
          refine ⟨hlen, ?_⟩
          rw [List.chain'_iff_get]
          intro i hilt
          have hi : i < (TimeVal.cf y0 m0 d0 :: rest).length := by omega
          have hi1 : i + 1 < (TimeVal.cf y0 m0 d0 :: rest).length := by omega
          have hbi : i < nums0.length := by omega
          have hbi1 : i + 1 < nums0.length := by omega
          have hgi := mapE_ok_get hm i hi hbi
          have hgi1 := mapE_ok_get hm (i + 1) hi1 hbi1
          cases hti : (TimeVal.cf y0 m0 d0 :: rest).get ⟨i, hi⟩ with
          | std r yy f =>
            rw [hti] at hgi
            exact absurd hgi (by simp [cfNumeric])
          | cf ya ma da =>
            cases hti1 : (TimeVal.cf y0 m0 d0 :: rest).get ⟨i + 1, hi1⟩ with
            | std r yy f =>
              rw [hti1] at hgi1
              exact absurd hgi1 (by simp [cfNumeric])
            | cf yb mb db =>
              rw [hti] at hgi
              rw [hti1] at hgi1
              simp only [cfNumeric, Except.ok.injEq] at hgi hgi1
              have hva := hvalid _ (List.get_mem (TimeVal.cf y0 m0 d0 :: rest) i hi)
              rw [hti] at hva
              have hvb := hvalid _ (List.get_mem (TimeVal.cf y0 m0 d0 :: rest) (i + 1) hi1)
              rw [hti1] at hvb
              simp only [TimeVal.valid] at hva hvb
              have hrel := List.chain'_iff_get.mp hmono i (by omega)
              rw [hti, hti1] at hrel
              simp only [TimeVal.le] at hrel
              rw [← hgi, ← hgi1]
              apply cf_month_mono hva.1 hva.2 hvb.1 hvb.2
              rcases hrel with h | ⟨hy, h⟩
              · exact Or.inl h
              · refine Or.inr ⟨hy, ?_⟩
                rcases h with h | ⟨hmm, _⟩
                · exact Or.inl h
                · exact Or.inr hmm
    | std r0 yy0 f0 =>
      simp only [convertT] at hc
      cases hm : mapE stdFloat (TimeVal.std r0 yy0 f0 :: rest) with
      | error e => simp only [hm] at hc; exact absurd hc (by simp)
      | ok nums0 =>
        simp only [hm] at hc
        simp only [PyOutcome.ret.injEq, Option.some.injEq] at hc
        subst hc
        have hlen := mapE_ok_length hm
        refine ⟨hlen, ?_⟩
        rw [List.chain'_iff_get]
        intro i hilt
        have hi : i < (TimeVal.std r0 yy0 f0 :: rest).length := by omega
        have hi1 : i + 1 < (TimeVal.std r0 yy0 f0 :: rest).length := by omega
        have hbi : i < nums0.length := by omega
        have hbi1 : i + 1 < nums0.length := by omega
        have hgi := mapE_ok_get hm i hi hbi
        have hgi1 := mapE_ok_get hm (i + 1) hi1 hbi1
        cases hti : (TimeVal.std r0 yy0 f0 :: rest).get ⟨i, hi⟩ with
        | cf ya ma da =>
          rw [hti] at hgi
          exact absurd hgi (by simp [stdFloat])
        | std ra yya fa =>
          cases hti1 : (TimeVal.std r0 yy0 f0 :: rest).get ⟨i + 1, hi1⟩ with
          | cf yb mb db =>
            rw [hti1] at hgi1
            exact absurd hgi1 (by simp [stdFloat])
          | std rb yyb fb =>
            rw [hti] at hgi
            rw [hti1] at hgi1
            simp only [stdFloat, Except.ok.injEq] at hgi hgi1
            have hrel := List.chain'_iff_get.mp hmono i (by omega)
            rw [hti, hti1] at hrel
            simp only [TimeVal.le] at hrel
            rw [← hgi, ← hgi1]
            exact hrel

/-- Witness for C8 at the calendar axis [1850-03-07, 1850-04-01], whose
normalization [1850 + 3/12, 1850 + 4/12] has length 2 and is
non-decreasing. -/
theorem c8_witness :
    (∀ t ∈ [TimeVal.cf 1850 3 7, TimeVal.cf 1850 4 1], t.valid) ∧
    List.Chain' TimeVal.le [TimeVal.cf 1850 3 7, TimeVal.cf 1850 4 1] ∧
    ([((1850 : Int) : ℚ) + ((3 : Int) : ℚ) / 12,
      ((1850 : Int) : ℚ) + ((4 : Int) : ℚ) / 12]).length
      = ([TimeVal.cf 1850 3 7, TimeVal.cf 1850 4 1]).length ∧
    List.Chain' (fun p q => p ≤ q)
      [((1850 : Int) : ℚ) + ((3 : Int) : ℚ) / 12,
       ((1850 : Int) : ℚ) + ((4 : Int) : ℚ) / 12] := by
  have hvalid : ∀ t ∈ [TimeVal.cf 1850 3 7, TimeVal.cf 1850 4 1], t.valid := by decide
  have hmono : List.Chain' TimeVal.le [TimeVal.cf 1850 3 7, TimeVal.cf 1850 4 1] := by
    rw [List.chain'_cons]
    exact ⟨Or.inr ⟨rfl, Or.inl (by decide)⟩, List.chain'_singleton _⟩
  have hc : convert_time_to_numeric ⟨[], some [TimeVal.cf 1850 3 7, TimeVal.cf 1850 4 1]⟩
      = .ret (some [((1850 : Int) : ℚ) + ((3 : Int) : ℚ) / 12,
                    ((1850 : Int) : ℚ) + ((4 : Int) : ℚ) / 12]) := rfl
  obtain ⟨h1, h2⟩ := c8_monotone_normalization
    ⟨[], some [TimeVal.cf 1850 3 7, TimeVal.cf 1850 4 1]⟩
    [TimeVal.cf 1850 3 7, TimeVal.cf 1850 4 1]
    [((1850 : Int) : ℚ) + ((3 : Int) : ℚ) / 12,
     ((1850 : Int) : ℚ) + ((4 : Int) : ℚ) / 12]
    rfl hvalid hmono hc
  exact ⟨hvalid, hmono, h1, h2⟩

end Climate
